import Mathlib

/-!
Verification of the property listing service of the Real-Estate-web
repository (`src/api/services/propertyService.js`,
`src/api/helper/propertyBuilder.js`, `src/api/services/propertyImageService.js`,
model `src/api/models/property.js`).

The service layer is embedded shallowly:
* a `Property` row is a record with the columns of the `Property` model;
* the relational store is a `List Property` (its list order is the store's
  natural order); `PropertyImage` rows are a `List PropertyImage`;
* `findAll` with a `where` object and an `order` array is filtering
  followed by a stable sort on the order keys (`List.mergeSort`);
* Sequelize `instance.update(values)` ignores keys whose value is
  `undefined`, so the update payload is a record of `Option` fields;
* a thrown JS `Error` is `Except.error` carrying the message string;
* `AUTO_INCREMENT` primary keys are modelled by a `nextId` counter in the
  database state, so a fresh id is issued on every create.
-/

namespace RealEstate

/-- A row of the `Property` table (`src/api/models/property.js`).
`price` (DECIMAL) and `year_built` are modelled as integers, `created_at`
as a numeric timestamp. -/
structure Property where
  property_id : Nat
  user_id : Nat
  name : String
  description : String
  city : String
  price : Int
  property_type : String
  square_meter : Nat
  bedrooms : Nat
  bathrooms : Nat
  living_rooms : Nat
  balconies : Nat
  parking_spaces : Nat
  furnished : Bool
  year_built : Int
  isForRent : Bool
  isApproved : Bool
  created_at : Nat
deriving DecidableEq, Repr

/-- A row of the `PropertyImage` table (`src/api/models/propertyImage.js`). -/
structure PropertyImage where
  image_id : Nat
  property_id : Nat
  image_url : String
deriving DecidableEq, Repr

/-- A property as returned by the list operations that attach images:
the plain row plus the `images` field added by
`propertyBuilder.attachImagesToProperties`. -/
structure EnrichedProperty extends Property where
  images : List String
deriving DecidableEq, Repr

/-- Sort columns that `buildOrder` can emit. -/
inductive SortCol
  | price
  | created_at
  | year_built
deriving DecidableEq, Repr

/-- Sort directions that `buildOrder` can emit. -/
inductive SortDir
  | asc
  | desc
deriving DecidableEq, Repr

/-- The numeric value of a sort column on a row. -/
def colVal : SortCol → Property → Int
  | .price, p => p.price
  | .created_at, p => (p.created_at : Int)
  | .year_built, p => p.year_built

/-- The row comparison generated by one `[column, direction]` entry of a
Sequelize `order` array. -/
def itemLe (it : SortCol × SortDir) (a b : Property) : Bool :=
  match it.2 with
  | .asc => decide (colVal it.1 a ≤ colVal it.1 b)
  | .desc => decide (colVal it.1 b ≤ colVal it.1 a)

/-- `buildOrder` (propertyService.js, lines 272-292): maps a `sortBy`
string to a Sequelize `order` array; any unrecognized value yields the
empty array. -/
def buildOrder (sortBy : String) : List (SortCol × SortDir) :=
  if sortBy = "price_asc" then [(.price, .asc)]
  else if sortBy = "price_desc" then [(.price, .desc)]
  else if sortBy = "date_asc" then [(.created_at, .asc)]
  else if sortBy = "date_desc" then [(.created_at, .desc)]
  else if sortBy = "year_asc" then [(.year_built, .asc)]
  else if sortBy = "year_desc" then [(.year_built, .desc)]
  else []

/-- `ORDER BY` semantics of a Sequelize `order` array: a stable sort on
each key, applied from the least significant key outwards; the empty
array leaves the store's natural order. -/
def applyOrder : List (SortCol × SortDir) → List Property → List Property
  | [], l => l
  | it :: rest, l => List.mergeSort (applyOrder rest l) (itemLe it)

/-- `Property.findAll({where, order})`: the rows satisfying the predicate,
in the order prescribed by the `order` array. -/
def findAll (pred : Property → Bool) (order : List (SortCol × SortDir))
    (store : List Property) : List Property :=
  applyOrder order (store.filter pred)

/-- `PropertyImage.findAll` of `getImagesByProperty`
(propertyImageService.js): the image rows of one property, ordered by
`image_id` ascending. -/
def getImagesByProperty (imgs : List PropertyImage) (pid : Nat) :
    List PropertyImage :=
  List.mergeSort (imgs.filter (fun im => im.property_id == pid))
    (fun a b => decide (a.image_id ≤ b.image_id))

/-- `attachImagesToProperties` (propertyBuilder.js): each row, in input
order, augmented with the `image_url` values of its image rows. -/
def attachImagesToProperties (imgs : List PropertyImage)
    (props : List Property) : List EnrichedProperty :=
  props.map (fun p =>
    { toProperty := p
      images := (getImagesByProperty imgs p.property_id).map
        (fun im => im.image_url) })

/-- The optional filter arguments of `getPropertiesDynamic`
(propertyService.js, lines 203-208). `none` stands for the JS `null`
default of an omitted argument; `sortBy` is the raw string (omitted ≙ a
string no branch of `buildOrder` recognizes, canonically `""`). -/
structure DynFilters where
  isRent : Option Bool := none
  sortBy : String := ""
  city : Option String := none
  propertyType : Option String := none
  minPrice : Option Int := none
  maxPrice : Option Int := none
  minYear : Option Int := none
  maxYear : Option Int := none
  furnished : Option Bool := none
  userId : Option Nat := none
deriving DecidableEq, Repr

/-- The `whereCondition` built by `getPropertiesDynamic` (lines 224-247)
as a predicate on rows. `isApproved: true` is unconditional; each filter
contributes only when present; the JS truthiness tests `if (city)` and
`if (propertyType)` also skip the empty string; `userId` is an
`Op.ne` exclusion; the range bounds are `Op.gte`/`Op.lte`. -/
def dynWhere (f : DynFilters) (p : Property) : Bool :=
  p.isApproved
  && (match f.isRent with
      | none => true
      | some b => p.isForRent == b)
  && (match f.city with
      | none => true
      | some c => if c = "" then true else p.city == c)
  && (match f.propertyType with
      | none => true
      | some t => if t = "" then true else p.property_type == t)
  && (match f.furnished with
      | none => true
      | some b => p.furnished == b)
  && (match f.userId with
      | none => true
      | some u => !(p.user_id == u))
  && (match f.minYear with
      | none => true
      | some v => decide (v ≤ p.year_built))
  && (match f.maxYear with
      | none => true
      | some v => decide (p.year_built ≤ v))
  && (match f.minPrice with
      | none => true
      | some v => decide (v ≤ p.price))
  && (match f.maxPrice with
      | none => true
      | some v => decide (p.price ≤ v))

/-- `getPropertiesDynamic` (propertyService.js, lines 203-269), success
path: filter by the dynamic `whereCondition`, order by `buildOrder
sortBy`, then attach images. -/
def getPropertiesDynamic (imgs : List PropertyImage) (f : DynFilters)
    (store : List Property) : List EnrichedProperty :=
  attachImagesToProperties imgs (findAll (dynWhere f) (buildOrder f.sortBy) store)

/-- `getApprovedProperties` (lines 118-123): approved rows, newest first,
no image attachment. -/
def getApprovedProperties (store : List Property) : List Property :=
  findAll (fun p => p.isApproved) [(.created_at, .desc)] store

/-- `getNonApprovedProperties` (lines 125-140), success path:
non-approved rows, newest first, images attached. -/
def getNonApprovedProperties (imgs : List PropertyImage)
    (store : List Property) : List EnrichedProperty :=
  attachImagesToProperties imgs
    (findAll (fun p => !p.isApproved) [(.created_at, .desc)] store)

/-- `getPropertiesByUserId` (lines 168-187), success path: one user's
rows, newest first, images attached. -/
def getPropertiesByUserId (imgs : List PropertyImage) (uid : Nat)
    (store : List Property) : List EnrichedProperty :=
  attachImagesToProperties imgs
    (findAll (fun p => p.user_id == uid) [(.created_at, .desc)] store)

/-- `getPropertiesDynamic` including its `try`/`catch`: the store call's
outcome comes in as an `Except`; on failure the `catch` block discards
the store's error and throws `new Error("Error fetching properties")`. -/
def getPropertiesDynamicE (imgs : List PropertyImage) (f : DynFilters)
    (r : Except String (List Property)) : Except String (List EnrichedProperty) :=
  match r with
  | .ok store => .ok (getPropertiesDynamic imgs f store)
  | .error _ => .error "Error fetching properties"

/-- `getNonApprovedProperties` including its `try`/`catch`: a store
failure is replaced by `new Error("Error fetching non-approved
properties")`. -/
def getNonApprovedPropertiesE (imgs : List PropertyImage)
    (r : Except String (List Property)) : Except String (List EnrichedProperty) :=
  match r with
  | .ok store => .ok (getNonApprovedProperties imgs store)
  | .error _ => .error "Error fetching non-approved properties"

/-- `getPropertiesByUserId` including its `try`/`catch`: a store failure
is replaced by `new Error("Error fetching properties by user ID")`. -/
def getPropertiesByUserIdE (imgs : List PropertyImage) (uid : Nat)
    (r : Except String (List Property)) : Except String (List EnrichedProperty) :=
  match r with
  | .ok store => .ok (getPropertiesByUserId imgs uid store)
  | .error _ => .error "Error fetching properties by user ID"

/-- The mutable property table together with the `AUTO_INCREMENT`
counter of its primary key. -/
structure DBState where
  props : List Property
  nextId : Nat
deriving DecidableEq, Repr

/-- The arguments of `createProperty` (propertyService.js, lines 29-34);
`now` is the clock value the service stores in `created_at: new Date()`. -/
structure CreateArgs where
  name : String
  description : String
  city : String
  price : Int
  property_type : String
  bedrooms : Nat
  bathrooms : Nat
  living_rooms : Nat
  balconies : Nat
  parking_spaces : Nat
  square_meter : Nat
  user_id : Nat
  isForRent : Bool
  furnished : Bool
  year_built : Int
  now : Nat
deriving DecidableEq, Repr

/-- `createProperty` (lines 29-64): `findOne({where: {name, user_id}})`
guards the per-user unique-name invariant; on success the row is created
with `isApproved: false`, `created_at: new Date()` and a fresh id. -/
def createProperty (s : DBState) (a : CreateArgs) :
    Except String (Property × DBState) :=
  if s.props.any (fun p => p.name == a.name && p.user_id == a.user_id) then
    .error "Property with this name already exists for this user"
  else
    let newP : Property :=
      { property_id := s.nextId
        user_id := a.user_id
        name := a.name
        description := a.description
        city := a.city
        price := a.price
        property_type := a.property_type
        square_meter := a.square_meter
        bedrooms := a.bedrooms
        bathrooms := a.bathrooms
        living_rooms := a.living_rooms
        balconies := a.balconies
        parking_spaces := a.parking_spaces
        furnished := a.furnished
        year_built := a.year_built
        isForRent := a.isForRent
        isApproved := false
        created_at := a.now }
    .ok (newP, { props := s.props ++ [newP], nextId := s.nextId + 1 })

/-- The update payload of `updateProperty` (lines 68-72): exactly the
fields the service passes to `property.update`; `none` is a JS
`undefined` argument, which Sequelize `update` ignores. -/
structure UpdateFields where
  name : Option String := none
  description : Option String := none
  city : Option String := none
  price : Option Int := none
  property_type : Option String := none
  bedrooms : Option Nat := none
  bathrooms : Option Nat := none
  living_rooms : Option Nat := none
  balconies : Option Nat := none
  parking_spaces : Option Nat := none
  furnished : Option Bool := none
  year_built : Option Int := none
deriving DecidableEq, Repr

/-- `property.update({...})` of `updateProperty` (lines 79-92): each
supplied field is overwritten, each `undefined` field keeps its prior
value; no other column is touched. -/
def applyUpdate (p : Property) (u : UpdateFields) : Property :=
  { p with
    name := u.name.getD p.name
    description := u.description.getD p.description
    city := u.city.getD p.city
    price := u.price.getD p.price
    property_type := u.property_type.getD p.property_type
    bedrooms := u.bedrooms.getD p.bedrooms
    bathrooms := u.bathrooms.getD p.bathrooms
    living_rooms := u.living_rooms.getD p.living_rooms
    balconies := u.balconies.getD p.balconies
    parking_spaces := u.parking_spaces.getD p.parking_spaces
    furnished := u.furnished.getD p.furnished
    year_built := u.year_built.getD p.year_built }

/-- `Property.findByPk`: lookup by primary key. -/
def findByPk (props : List Property) (pid : Nat) : Option Property :=
  props.find? (fun p => p.property_id == pid)

/-- `updateProperty` (lines 68-95): `findByPk`, `Error("Property not
found")` when absent, otherwise `property.update` on the found row
(`property_id` is the primary key, so at most one row matches). -/
def updateProperty (s : DBState) (pid : Nat) (u : UpdateFields) :
    Except String (Property × DBState) :=
  match findByPk s.props pid with
  | none => .error "Property not found"
  | some p =>
    .ok (applyUpdate p u,
      { s with
        props :=
          s.props.map (fun q =>
            if q.property_id == pid then applyUpdate q u else q) })

/-- `deleteProperty` (lines 99-106): `findByPk` then `destroy`. -/
def deleteProperty (s : DBState) (pid : Nat) : Except String DBState :=
  match findByPk s.props pid with
  | none => .error "Property not found"
  | some _ =>
    .ok { s with props := s.props.filter (fun q => !(q.property_id == pid)) }

/-- `approveProperty` (lines 191-201): `findByPk`, then
`property.isApproved = true; property.save()`. -/
def approveProperty (s : DBState) (pid : Nat) :
    Except String (Property × DBState) :=
  match findByPk s.props pid with
  | none => .error "Property not found"
  | some p =>
    .ok ({ p with isApproved := true },
      { s with
        props :=
          s.props.map (fun q =>
            if q.property_id == pid then { q with isApproved := true } else q) })

/-- The operations the service exposes that can touch the property
table; `query` stands for any of the read-only list/lookup operations. -/
inductive Op
  | create (a : CreateArgs)
  | update (pid : Nat) (u : UpdateFields)
  | delete (pid : Nat)
  | approve (pid : Nat)
  | query
deriving Repr

/-- One service call as a state transition: a thrown error leaves the
store unchanged. -/
def stepStore (s : DBState) : Op → DBState
  | .create a =>
    match createProperty s a with
    | .ok (_, s2) => s2
    | .error _ => s
  | .update pid u =>
    match updateProperty s pid u with
    | .ok (_, s2) => s2
    | .error _ => s
  | .delete pid =>
    match deleteProperty s pid with
    | .ok s2 => s2
    | .error _ => s
  | .approve pid =>
    match approveProperty s pid with
    | .ok (_, s2) => s2
    | .error _ => s
  | .query => s

/-- A sequence of service calls. -/
def runOps (s : DBState) (ops : List Op) : DBState :=
  ops.foldl stepStore s

/-- Well-formedness of the store: every row's primary key has already
been issued by the `AUTO_INCREMENT` counter. -/
def WF (s : DBState) : Prop :=
  ∀ p ∈ s.props, p.property_id < s.nextId

/-- The enrichment `attachImagesToProperties` performs on a single row. -/
def enrich (imgs : List PropertyImage) (p : Property) : EnrichedProperty :=
  { toProperty := p
    images := (getImagesByProperty imgs p.property_id).map (fun im => im.image_url) }

lemma attachImagesToProperties_eq_map (imgs : List PropertyImage)
    (props : List Property) :
    attachImagesToProperties imgs props = props.map (enrich imgs) := rfl

lemma mem_applyOrder {o : List (SortCol × SortDir)} {l : List Property}
    {p : Property} : p ∈ applyOrder o l ↔ p ∈ l := by
  induction o with
  | nil => exact Iff.rfl
  | cons it rest ih => simpa [applyOrder] using ih

lemma mem_findAll {pred : Property → Bool} {o : List (SortCol × SortDir)}
    {store : List Property} {p : Property} :
    p ∈ findAll pred o store ↔ p ∈ store ∧ pred p = true := by
  simp [findAll, mem_applyOrder, List.mem_filter]

lemma mem_attachImagesToProperties {imgs : List PropertyImage}
    {props : List Property} {e : EnrichedProperty} :
    e ∈ attachImagesToProperties imgs props ↔
      ∃ p ∈ props, e = enrich imgs p := by
  rw [attachImagesToProperties_eq_map]
  simp [List.mem_map, eq_comm]

lemma enrich_toProperty (imgs : List PropertyImage) (p : Property) :
    (enrich imgs p).toProperty = p := rfl

lemma dynWhere_approved {f : DynFilters} {p : Property}
    (h : dynWhere f p = true) : p.isApproved = true := by
  simp only [dynWhere, Bool.and_eq_true] at h
  exact h.1.1.1.1.1.1.1.1.1

/-- A sample approved row, used to instantiate proved theorems. -/
def sampleApproved : Property :=
  { property_id := 1, user_id := 10, name := "Villa A", description := "d",
    city := "Beirut", price := 100000, property_type := "villa",
    square_meter := 200, bedrooms := 3, bathrooms := 2, living_rooms := 1,
    balconies := 1, parking_spaces := 1, furnished := true, year_built := 2000,
    isForRent := false, isApproved := true, created_at := 5 }

/-- The sample row as returned with an (empty) images field. -/
def sampleEnrichedA : EnrichedProperty :=
  { toProperty := sampleApproved, images := [] }

lemma sampleEnrichedA_mem :
    sampleEnrichedA ∈ getPropertiesDynamic [] {} [sampleApproved] := by
  rw [getPropertiesDynamic]
  refine mem_attachImagesToProperties.mpr ⟨sampleApproved, mem_findAll.mpr ⟨?_, ?_⟩, ?_⟩
  · simp
  · rfl
  · simp [enrich, sampleEnrichedA, getImagesByProperty]

/-- C1: every property in the result of `getPropertiesDynamic` (for every
combination of filter arguments) and every property in the result of
`getApprovedProperties` has `isApproved = true`; a non-approved property
never appears in either result. -/
theorem dynamic_results_all_approved (imgs : List PropertyImage)
    (f : DynFilters) (store : List Property) :
    (∀ e ∈ getPropertiesDynamic imgs f store, e.isApproved = true) ∧
    (∀ p ∈ getApprovedProperties store, p.isApproved = true) := by
  constructor
  · intro e he
    rw [getPropertiesDynamic] at he
    obtain ⟨p, hp, rfl⟩ := mem_attachImagesToProperties.mp he
    exact dynWhere_approved (mem_findAll.mp hp).2
  · intro p hp
    exact (mem_findAll.mp hp).2

/-- C1 witness: a concrete approved row appears in both results and the
theorem yields its approval flag. -/
theorem dynamic_results_all_approved_witness :
    (sampleEnrichedA ∈ getPropertiesDynamic [] {} [sampleApproved] ∧
      sampleEnrichedA.isApproved = true) ∧
    (sampleApproved ∈ getApprovedProperties [sampleApproved] ∧
      sampleApproved.isApproved = true) := by
  have h1 := sampleEnrichedA_mem
  have h2 : sampleApproved ∈ getApprovedProperties [sampleApproved] := by
    refine mem_findAll.mpr ⟨?_, ?_⟩
    · simp
    · rfl
  exact ⟨⟨h1, (dynamic_results_all_approved [] {} [sampleApproved]).1 _ h1⟩,
    ⟨h2, (dynamic_results_all_approved [] {} [sampleApproved]).2 _ h2⟩⟩

/-- The filter request restricted to its `isRent` argument. -/
def onlyIsRent (f : DynFilters) : DynFilters := { isRent := f.isRent }

/-- The filter request restricted to its `city` argument. -/
def onlyCity (f : DynFilters) : DynFilters := { city := f.city }

/-- The filter request restricted to its `propertyType` argument. -/
def onlyPropertyType (f : DynFilters) : DynFilters :=
  { propertyType := f.propertyType }

/-- The filter request restricted to its `furnished` argument. -/
def onlyFurnished (f : DynFilters) : DynFilters := { furnished := f.furnished }

/-- The filter request restricted to its `userId` exclusion argument. -/
def onlyExcludeUser (f : DynFilters) : DynFilters := { userId := f.userId }

/-- The filter request restricted to its price range arguments. -/
def onlyPriceRange (f : DynFilters) : DynFilters :=
  { minPrice := f.minPrice, maxPrice := f.maxPrice }

/-- The filter request restricted to its year range arguments. -/
def onlyYearRange (f : DynFilters) : DynFilters :=
  { minYear := f.minYear, maxYear := f.maxYear }

lemma dynWhere_eq_only (f : DynFilters) (p : Property) :
    dynWhere f p = true ↔
      (dynWhere (onlyIsRent f) p = true ∧ dynWhere (onlyCity f) p = true ∧
       dynWhere (onlyPropertyType f) p = true ∧
       dynWhere (onlyFurnished f) p = true ∧
       dynWhere (onlyExcludeUser f) p = true ∧
       dynWhere (onlyPriceRange f) p = true ∧
       dynWhere (onlyYearRange f) p = true) := by
  simp only [dynWhere, onlyIsRent, onlyCity, onlyPropertyType, onlyFurnished,
    onlyExcludeUser, onlyPriceRange, onlyYearRange, Bool.and_eq_true,
    Bool.and_true, Bool.true_and]
  tauto

lemma eq_enrich_iff {imgs : List PropertyImage} {p : Property}
    {e : EnrichedProperty} :
    e = enrich imgs p ↔
      e.toProperty = p ∧
        e.images = (getImagesByProperty imgs p.property_id).map
          (fun im => im.image_url) := by
  cases e with
  | mk tp im => simp [enrich]

/-- C2: membership in the result of `getPropertiesDynamic` is exactly the
conjunction of membership in the results of each present filter applied
alone (the predicate is the AND of all present filters plus the approval
constraint), and the result of the request with every filter absent is
constrained only by approval — an absent filter imposes no constraint. -/
theorem dynamic_filters_intersection (imgs : List PropertyImage)
    (f : DynFilters) (store : List Property) (e : EnrichedProperty) :
    (e ∈ getPropertiesDynamic imgs f store ↔
      (e ∈ getPropertiesDynamic imgs (onlyIsRent f) store ∧
       e ∈ getPropertiesDynamic imgs (onlyCity f) store ∧
       e ∈ getPropertiesDynamic imgs (onlyPropertyType f) store ∧
       e ∈ getPropertiesDynamic imgs (onlyFurnished f) store ∧
       e ∈ getPropertiesDynamic imgs (onlyExcludeUser f) store ∧
       e ∈ getPropertiesDynamic imgs (onlyPriceRange f) store ∧
       e ∈ getPropertiesDynamic imgs (onlyYearRange f) store)) ∧
    (e ∈ getPropertiesDynamic imgs {} store ↔
      (e.toProperty ∈ store ∧ e.toProperty.isApproved = true ∧
       e.images = (getImagesByProperty imgs e.toProperty.property_id).map
         (fun im => im.image_url))) := by
  have key : ∀ g : DynFilters, e ∈ getPropertiesDynamic imgs g store ↔
      ∃ p ∈ store, dynWhere g p = true ∧ e = enrich imgs p := by
    intro g
    rw [getPropertiesDynamic]
    constructor
    · intro he
      obtain ⟨p, hp, rfl⟩ := mem_attachImagesToProperties.mp he
      obtain ⟨hmem, hw⟩ := mem_findAll.mp hp
      exact ⟨p, hmem, hw, rfl⟩
    · rintro ⟨p, hmem, hw, rfl⟩
      exact mem_attachImagesToProperties.mpr ⟨p, mem_findAll.mpr ⟨hmem, hw⟩, rfl⟩
  constructor
  · constructor
    · intro he
      obtain ⟨p, hmem, hw, hep⟩ := (key f).mp he
      obtain ⟨h1, h2, h3, h4, h5, h6, h7⟩ := (dynWhere_eq_only f p).mp hw
      exact ⟨(key _).mpr ⟨p, hmem, h1, hep⟩, (key _).mpr ⟨p, hmem, h2, hep⟩,
        (key _).mpr ⟨p, hmem, h3, hep⟩, (key _).mpr ⟨p, hmem, h4, hep⟩,
        (key _).mpr ⟨p, hmem, h5, hep⟩, (key _).mpr ⟨p, hmem, h6, hep⟩,
        (key _).mpr ⟨p, hmem, h7, hep⟩⟩
    · rintro ⟨m1, m2, m3, m4, m5, m6, m7⟩
      obtain ⟨p, hmem, h1, hep⟩ := (key _).mp m1
      have hp1 : p = e.toProperty := ((eq_enrich_iff).mp hep).1.symm
      obtain ⟨p2, _, h2, hep2⟩ := (key _).mp m2
      obtain ⟨p3, _, h3, hep3⟩ := (key _).mp m3
      obtain ⟨p4, _, h4, hep4⟩ := (key _).mp m4
      obtain ⟨p5, _, h5, hep5⟩ := (key _).mp m5
      obtain ⟨p6, _, h6, hep6⟩ := (key _).mp m6
      obtain ⟨p7, _, h7, hep7⟩ := (key _).mp m7
      have e2 : p2 = p := (((eq_enrich_iff).mp hep2).1.symm).trans hp1.symm
      have e3 : p3 = p := (((eq_enrich_iff).mp hep3).1.symm).trans hp1.symm
      have e4 : p4 = p := (((eq_enrich_iff).mp hep4).1.symm).trans hp1.symm
      have e5 : p5 = p := (((eq_enrich_iff).mp hep5).1.symm).trans hp1.symm
      have e6 : p6 = p := (((eq_enrich_iff).mp hep6).1.symm).trans hp1.symm
      have e7 : p7 = p := (((eq_enrich_iff).mp hep7).1.symm).trans hp1.symm
      rw [e2] at h2
      rw [e3] at h3
      rw [e4] at h4
      rw [e5] at h5
      rw [e6] at h6
      rw [e7] at h7
      exact (key f).mpr ⟨p, hmem,
        (dynWhere_eq_only f p).mpr ⟨h1, h2, h3, h4, h5, h6, h7⟩, hep⟩
  · rw [key]
    constructor
    · rintro ⟨p, hmem, hw, hep⟩
      obtain ⟨htp, him⟩ := (eq_enrich_iff).mp hep
      subst htp
      exact ⟨hmem, dynWhere_approved hw, him⟩
    · rintro ⟨hmem, happ, him⟩
      refine ⟨e.toProperty, hmem, ?_, (eq_enrich_iff).mpr ⟨rfl, him⟩⟩
      simp [dynWhere, happ]

/-- C3: when `minPrice`/`maxPrice` are given to `getPropertiesDynamic`,
every returned property satisfies `minPrice ≤ price` and
`price ≤ maxPrice` (inclusive bounds), and analogously `minYear`/`maxYear`
bound `year_built` inclusively. -/
theorem dynamic_bounds_inclusive (imgs : List PropertyImage)
    (f : DynFilters) (store : List Property) (e : EnrichedProperty)
    (he : e ∈ getPropertiesDynamic imgs f store) :
    (∀ lo, f.minPrice = some lo → lo ≤ e.toProperty.price) ∧
    (∀ hi, f.maxPrice = some hi → e.toProperty.price ≤ hi) ∧
    (∀ lo, f.minYear = some lo → lo ≤ e.toProperty.year_built) ∧
    (∀ hi, f.maxYear = some hi → e.toProperty.year_built ≤ hi) := by
  rw [getPropertiesDynamic] at he
  obtain ⟨p, hp, rfl⟩ := mem_attachImagesToProperties.mp he
  have hw := (mem_findAll.mp hp).2
  simp only [dynWhere, Bool.and_eq_true] at hw
  refine ⟨fun v hv => ?_, fun v hv => ?_, fun v hv => ?_, fun v hv => ?_⟩
  · have h := hw.1.2
    rw [hv] at h
    exact of_decide_eq_true h
  · have h := hw.2
    rw [hv] at h
    exact of_decide_eq_true h
  · have h := hw.1.1.1.2
    rw [hv] at h
    exact of_decide_eq_true h
  · have h := hw.1.1.2
    rw [hv] at h
    exact of_decide_eq_true h

/-- A filter request whose price and year bounds equal the sample row's
values exactly, exercising the inclusive boundaries. -/
def sampleBoundsFilter : DynFilters :=
  { minPrice := some 100000, maxPrice := some 100000,
    minYear := some 2000, maxYear := some 2000 }

lemma sampleEnrichedA_mem_bounds :
    sampleEnrichedA ∈ getPropertiesDynamic [] sampleBoundsFilter [sampleApproved] := by
  rw [getPropertiesDynamic]
  refine mem_attachImagesToProperties.mpr
    ⟨sampleApproved, mem_findAll.mpr ⟨?_, ?_⟩, ?_⟩
  · simp
  · rfl
  · simp [enrich, sampleEnrichedA, getImagesByProperty]

/-- C3 witness: a row whose price and year sit exactly on both bounds is
returned, and the theorem yields the inclusive inequalities for it. -/
theorem dynamic_bounds_inclusive_witness :
    sampleEnrichedA ∈ getPropertiesDynamic [] sampleBoundsFilter [sampleApproved] ∧
    ((100000 : Int) ≤ sampleEnrichedA.toProperty.price ∧
     sampleEnrichedA.toProperty.price ≤ (100000 : Int) ∧
     (2000 : Int) ≤ sampleEnrichedA.toProperty.year_built ∧
     sampleEnrichedA.toProperty.year_built ≤ (2000 : Int)) := by
  have hm := sampleEnrichedA_mem_bounds
  obtain ⟨h1, h2, h3, h4⟩ :=
    dynamic_bounds_inclusive [] sampleBoundsFilter [sampleApproved]
      sampleEnrichedA hm
  exact ⟨hm, h1 100000 rfl, h2 100000 rfl, h3 2000 rfl, h4 2000 rfl⟩

lemma itemLe_trans (it : SortCol × SortDir) :
    ∀ a b c : Property, itemLe it a b = true → itemLe it b c = true →
      itemLe it a c = true := by
  intro a b c hab hbc
  obtain ⟨col, dir⟩ := it
  cases dir <;> simp only [itemLe, decide_eq_true_eq] at hab hbc ⊢ <;> omega

lemma itemLe_total (it : SortCol × SortDir) :
    ∀ a b : Property, itemLe it a b || itemLe it b a := by
  intro a b
  obtain ⟨col, dir⟩ := it
  cases dir <;> simp only [itemLe, Bool.or_eq_true, decide_eq_true_eq] <;> omega

lemma pairwise_attachImagesToProperties {imgs : List PropertyImage}
    {l : List Property} {R : Property → Property → Prop}
    (h : l.Pairwise R) :
    (attachImagesToProperties imgs l).Pairwise
      (fun a b => R a.toProperty b.toProperty) := by
  rw [attachImagesToProperties_eq_map]
  exact h.map _ (fun a b hab => hab)

lemma dyn_sorted_of_buildOrder (imgs : List PropertyImage) (f : DynFilters)
    (store : List Property) (it : SortCol × SortDir)
    (hb : buildOrder f.sortBy = [it]) :
    (getPropertiesDynamic imgs f store).Pairwise
      (fun a b => itemLe it a.toProperty b.toProperty = true) := by
  rw [getPropertiesDynamic, findAll, hb, applyOrder, applyOrder]
  exact pairwise_attachImagesToProperties
    (List.sorted_mergeSort (itemLe_trans it) (itemLe_total it) _)

/-- C4: `sortBy = price_asc` yields a result non-decreasing in price and
`price_desc` a non-increasing one; `date_asc`/`date_desc` order by
`created_at` and `year_asc`/`year_desc` by `year_built`, ascending and
descending respectively; any `sortBy` outside the six recognized keys
leaves the store's natural order (the filtered store, unsorted). -/
theorem dynamic_sort_orders (imgs : List PropertyImage) (f : DynFilters)
    (store : List Property) :
    (f.sortBy = "price_asc" →
      (getPropertiesDynamic imgs f store).Pairwise
        (fun a b => a.toProperty.price ≤ b.toProperty.price)) ∧
    (f.sortBy = "price_desc" →
      (getPropertiesDynamic imgs f store).Pairwise
        (fun a b => b.toProperty.price ≤ a.toProperty.price)) ∧
    (f.sortBy = "date_asc" →
      (getPropertiesDynamic imgs f store).Pairwise
        (fun a b => a.toProperty.created_at ≤ b.toProperty.created_at)) ∧
    (f.sortBy = "date_desc" →
      (getPropertiesDynamic imgs f store).Pairwise
        (fun a b => b.toProperty.created_at ≤ a.toProperty.created_at)) ∧
    (f.sortBy = "year_asc" →
      (getPropertiesDynamic imgs f store).Pairwise
        (fun a b => a.toProperty.year_built ≤ b.toProperty.year_built)) ∧
    (f.sortBy = "year_desc" →
      (getPropertiesDynamic imgs f store).Pairwise
        (fun a b => b.toProperty.year_built ≤ a.toProperty.year_built)) ∧
    (f.sortBy ∉ ["price_asc", "price_desc", "date_asc", "date_desc",
        "year_asc", "year_desc"] →
      getPropertiesDynamic imgs f store =
        attachImagesToProperties imgs (store.filter (dynWhere f))) := by
  refine ⟨fun h => ?_, fun h => ?_, fun h => ?_, fun h => ?_, fun h => ?_,
    fun h => ?_, fun h => ?_⟩
  · refine (dyn_sorted_of_buildOrder imgs f store (.price, .asc)
      (by rw [h]; rfl)).imp ?_
    intro a b hab
    simpa [itemLe, colVal] using hab
  · refine (dyn_sorted_of_buildOrder imgs f store (.price, .desc)
      (by rw [h]; rfl)).imp ?_
    intro a b hab
    simpa [itemLe, colVal] using hab
  · refine (dyn_sorted_of_buildOrder imgs f store (.created_at, .asc)
      (by rw [h]; rfl)).imp ?_
    intro a b hab
    simp only [itemLe, colVal, decide_eq_true_eq] at hab
    exact_mod_cast hab
  · refine (dyn_sorted_of_buildOrder imgs f store (.created_at, .desc)
      (by rw [h]; rfl)).imp ?_
    intro a b hab
    simp only [itemLe, colVal, decide_eq_true_eq] at hab
    exact_mod_cast hab
  · refine (dyn_sorted_of_buildOrder imgs f store (.year_built, .asc)
      (by rw [h]; rfl)).imp ?_
    intro a b hab
    simpa [itemLe, colVal] using hab
  · refine (dyn_sorted_of_buildOrder imgs f store (.year_built, .desc)
      (by rw [h]; rfl)).imp ?_
    intro a b hab
    simpa [itemLe, colVal] using hab
  · simp only [List.mem_cons, List.mem_singleton, not_or] at h
    obtain ⟨h1, h2, h3, h4, h5, h6, _⟩ := h
    rw [getPropertiesDynamic, findAll, buildOrder,
      if_neg h1, if_neg h2, if_neg h3, if_neg h4, if_neg h5, if_neg h6,
      applyOrder]

/-- C4 witness: a concrete `price_asc` request is sorted and a concrete
unrecognized key falls back to the natural order. -/
theorem dynamic_sort_orders_witness :
    (getPropertiesDynamic [] { sortBy := "price_asc" } [sampleApproved]).Pairwise
      (fun a b => a.toProperty.price ≤ b.toProperty.price) ∧
    getPropertiesDynamic [] { sortBy := "newest" } [sampleApproved] =
      attachImagesToProperties []
        ([sampleApproved].filter (dynWhere { sortBy := "newest" })) := by
  constructor
  · exact (dynamic_sort_orders [] { sortBy := "price_asc" } [sampleApproved]).1 rfl
  · exact (dynamic_sort_orders [] { sortBy := "newest" }
      [sampleApproved]).2.2.2.2.2.2 (by decide)

/-- C5: `createProperty` fails with the conflict error and produces no new
store when a property with the same name already exists for the same
`user_id`; when no property of that user carries the name (in particular
when the name exists only under a different user), it succeeds and the
store gains exactly the one new property. -/
theorem createProperty_unique_per_user (s : DBState) (a : CreateArgs) :
    ((∃ p ∈ s.props, p.name = a.name ∧ p.user_id = a.user_id) →
      createProperty s a =
        .error "Property with this name already exists for this user") ∧
    ((∀ p ∈ s.props, ¬(p.name = a.name ∧ p.user_id = a.user_id)) →
      ∃ newP s2, createProperty s a = .ok (newP, s2) ∧
        s2.props = s.props ++ [newP] ∧
        newP.name = a.name ∧ newP.user_id = a.user_id ∧
        newP.isApproved = false) := by
  constructor
  · rintro ⟨p, hp, hn, hu⟩
    rw [createProperty, if_pos]
    exact List.any_eq_true.mpr ⟨p, hp, by simp [hn, hu]⟩
  · intro h
    rw [createProperty, if_neg]
    · exact ⟨_, _, rfl, rfl, rfl, rfl, rfl⟩
    · intro hany
      obtain ⟨p, hp, hpb⟩ := List.any_eq_true.mp hany
      simp only [Bool.and_eq_true, beq_iff_eq] at hpb
      exact h p hp hpb

/-- The same listing data submitted again by the same user. -/
def sampleArgsSameUser : CreateArgs :=
  { name := "Villa A", description := "other", city := "Beirut", price := 5,
    property_type := "apartment", bedrooms := 1, bathrooms := 1,
    living_rooms := 1, balconies := 0, parking_spaces := 0,
    square_meter := 80, user_id := 10, isForRent := true, furnished := false,
    year_built := 1999, now := 9 }

/-- C5 witness: with the sample row in store, the same name under the same
user is rejected with the conflict error, and the same name under a
different user succeeds and appends exactly one row. -/
theorem createProperty_unique_per_user_witness :
    ((∃ p ∈ (⟨[sampleApproved], 2⟩ : DBState).props,
        p.name = sampleArgsSameUser.name ∧
        p.user_id = sampleArgsSameUser.user_id) ∧
      createProperty ⟨[sampleApproved], 2⟩ sampleArgsSameUser =
        .error "Property with this name already exists for this user") ∧
    ((∀ p ∈ (⟨[sampleApproved], 2⟩ : DBState).props,
        ¬(p.name = ({ sampleArgsSameUser with user_id := 11 } : CreateArgs).name ∧
          p.user_id = ({ sampleArgsSameUser with user_id := 11 } : CreateArgs).user_id)) ∧
      ∃ newP s2,
        createProperty ⟨[sampleApproved], 2⟩
            { sampleArgsSameUser with user_id := 11 } = .ok (newP, s2) ∧
        s2.props = (⟨[sampleApproved], 2⟩ : DBState).props ++ [newP] ∧
        newP.name = ({ sampleArgsSameUser with user_id := 11 } : CreateArgs).name ∧
        newP.user_id = ({ sampleArgsSameUser with user_id := 11 } : CreateArgs).user_id ∧
        newP.isApproved = false) := by
  have hconf : ∃ p ∈ (⟨[sampleApproved], 2⟩ : DBState).props,
      p.name = sampleArgsSameUser.name ∧
      p.user_id = sampleArgsSameUser.user_id := by decide
  have hfree : ∀ p ∈ (⟨[sampleApproved], 2⟩ : DBState).props,
      ¬(p.name = ({ sampleArgsSameUser with user_id := 11 } : CreateArgs).name ∧
        p.user_id = ({ sampleArgsSameUser with user_id := 11 } : CreateArgs).user_id) := by
    decide
  exact ⟨⟨hconf,
      (createProperty_unique_per_user ⟨[sampleApproved], 2⟩ sampleArgsSameUser).1 hconf⟩,
    ⟨hfree,
      (createProperty_unique_per_user ⟨[sampleApproved], 2⟩
        { sampleArgsSameUser with user_id := 11 }).2 hfree⟩⟩

/-- C6: `updateProperty` has partial-update semantics — when the property
exists, the updated row carries the supplied value for every supplied
field (`some v ↦ v`) and the prior value for every field not supplied
(`none ↦` prior), stated as `Option.getD` per updatable field. -/
theorem updateProperty_partial_semantics (s : DBState) (pid : Nat)
    (u : UpdateFields) (p : Property)
    (hfind : findByPk s.props pid = some p) :
    ∃ p2 s2, updateProperty s pid u = .ok (p2, s2) ∧
      p2.name = u.name.getD p.name ∧
      p2.description = u.description.getD p.description ∧
      p2.city = u.city.getD p.city ∧
      p2.price = u.price.getD p.price ∧
      p2.property_type = u.property_type.getD p.property_type ∧
      p2.bedrooms = u.bedrooms.getD p.bedrooms ∧
      p2.bathrooms = u.bathrooms.getD p.bathrooms ∧
      p2.living_rooms = u.living_rooms.getD p.living_rooms ∧
      p2.balconies = u.balconies.getD p.balconies ∧
      p2.parking_spaces = u.parking_spaces.getD p.parking_spaces ∧
      p2.furnished = u.furnished.getD p.furnished ∧
      p2.year_built = u.year_built.getD p.year_built := by
  rw [updateProperty, hfind]
  exact ⟨_, _, rfl, rfl, rfl, rfl, rfl, rfl, rfl, rfl, rfl, rfl, rfl, rfl, rfl⟩

/-- C6 witness: updating only the price of the sample row keeps its name
and changes its price to the supplied value. -/
theorem updateProperty_partial_semantics_witness :
    findByPk [sampleApproved] 1 = some sampleApproved ∧
    ∃ p2 s2,
      updateProperty ⟨[sampleApproved], 2⟩ 1 { price := some 77 } = .ok (p2, s2) ∧
      p2.name = sampleApproved.name ∧ p2.price = 77 := by
  have hfind : findByPk [sampleApproved] 1 = some sampleApproved := by rfl
  obtain ⟨p2, s2, hok, hname, _, _, hprice, _⟩ :=
    updateProperty_partial_semantics ⟨[sampleApproved], 2⟩ 1
      { price := some 77 } sampleApproved hfind
  exact ⟨hfind, p2, s2, hok, hname, hprice⟩

lemma applyUpdate_frame (p : Property) (u : UpdateFields) :
    (applyUpdate p u).user_id = p.user_id ∧
    (applyUpdate p u).isApproved = p.isApproved ∧
    (applyUpdate p u).isForRent = p.isForRent ∧
    (applyUpdate p u).square_meter = p.square_meter ∧
    (applyUpdate p u).created_at = p.created_at ∧
    (applyUpdate p u).property_id = p.property_id :=
  ⟨rfl, rfl, rfl, rfl, rfl, rfl⟩

/-- C10: `updateProperty` never changes `user_id`, `isApproved`,
`isForRent`, `square_meter`, `created_at` or `property_id`: on success,
the returned row keeps the found row's values for these six fields and
every row of the new store keeps the corresponding old row's values. -/
theorem updateProperty_frame (s : DBState) (pid : Nat) (u : UpdateFields)
    (p2 : Property) (s2 : DBState)
    (hok : updateProperty s pid u = .ok (p2, s2)) :
    (∀ p, findByPk s.props pid = some p →
      p2.user_id = p.user_id ∧ p2.isApproved = p.isApproved ∧
      p2.isForRent = p.isForRent ∧ p2.square_meter = p.square_meter ∧
      p2.created_at = p.created_at ∧ p2.property_id = p.property_id) ∧
    s2.props.length = s.props.length ∧
    (∀ i (h : i < s.props.length) (h2 : i < s2.props.length),
      (s2.props.get ⟨i, h2⟩).user_id = (s.props.get ⟨i, h⟩).user_id ∧
      (s2.props.get ⟨i, h2⟩).isApproved = (s.props.get ⟨i, h⟩).isApproved ∧
      (s2.props.get ⟨i, h2⟩).isForRent = (s.props.get ⟨i, h⟩).isForRent ∧
      (s2.props.get ⟨i, h2⟩).square_meter = (s.props.get ⟨i, h⟩).square_meter ∧
      (s2.props.get ⟨i, h2⟩).created_at = (s.props.get ⟨i, h⟩).created_at ∧
      (s2.props.get ⟨i, h2⟩).property_id = (s.props.get ⟨i, h⟩).property_id) := by
  rw [updateProperty] at hok
  cases hfind : findByPk s.props pid with
  | none =>
    rw [hfind] at hok
    exact absurd hok (by simp)
  | some p =>
    rw [hfind] at hok
    simp only [Except.ok.injEq, Prod.mk.injEq] at hok
    obtain ⟨hp2, hs2⟩ := hok
    subst hp2
    subst hs2
    refine ⟨?_, ?_, ?_⟩
    · intro q hq
      obtain rfl : p = q := by injection hq
      exact applyUpdate_frame p u
    · exact List.length_map _ _
    · intro i h h2
      have hget :
          (List.map (fun q =>
              if q.property_id == pid then applyUpdate q u else q)
            s.props).get ⟨i, h2⟩ =
          (fun q => if q.property_id == pid then applyUpdate q u else q)
            (s.props.get ⟨i, h⟩) :=
        List.get_map _
      dsimp only at h2 ⊢
      rw [hget]
      dsimp only
      by_cases hc : (s.props.get ⟨i, h⟩).property_id == pid
      · rw [if_pos hc]
        exact applyUpdate_frame _ u
      · rw [if_neg hc]
        exact ⟨rfl, rfl, rfl, rfl, rfl, rfl⟩

/-- C10 witness: a concrete price-only update succeeds and the theorem
yields the frame equalities for it. -/
theorem updateProperty_frame_witness :
    updateProperty ⟨[sampleApproved], 2⟩ 1 { price := some 77 } =
      .ok ({ sampleApproved with price := 77 },
        ⟨[{ sampleApproved with price := 77 }], 2⟩) ∧
    ({ sampleApproved with price := 77 } : Property).user_id =
      sampleApproved.user_id := by
  have hok : updateProperty ⟨[sampleApproved], 2⟩ 1 { price := some 77 } =
      .ok ({ sampleApproved with price := 77 },
        ⟨[{ sampleApproved with price := 77 }], 2⟩) := by rfl
  exact ⟨hok,
    ((updateProperty_frame ⟨[sampleApproved], 2⟩ 1 { price := some 77 }
      _ _ hok).1 sampleApproved rfl).1⟩

lemma stepStore_nextId_le (s : DBState) (op : Op) :
    s.nextId ≤ (stepStore s op).nextId := by
  cases op with
  | create a =>
    by_cases hc : s.props.any (fun p => p.name == a.name && p.user_id == a.user_id)
    · simp [stepStore, createProperty, hc]
    · simp [stepStore, createProperty, hc]
  | update pid u =>
    cases hf : findByPk s.props pid <;> simp [stepStore, updateProperty, hf]
  | delete pid =>
    cases hf : findByPk s.props pid <;> simp [stepStore, deleteProperty, hf]
  | approve pid =>
    cases hf : findByPk s.props pid <;> simp [stepStore, approveProperty, hf]
  | query => exact le_refl _

lemma stepStore_WF (s : DBState) (op : Op) (h : WF s) : WF (stepStore s op) := by
  cases op with
  | create a =>
    by_cases hc : s.props.any (fun p => p.name == a.name && p.user_id == a.user_id)
    · simpa [stepStore, createProperty, hc] using h
    · simp only [stepStore, createProperty, hc, Bool.false_eq_true, if_false]
      intro q hq
      rcases List.mem_append.mp hq with hq2 | hq2
      · exact Nat.lt_succ_of_lt (h q hq2)
      · rw [List.mem_singleton] at hq2
        subst hq2
        exact Nat.lt_succ_self _
  | update pid u =>
    cases hf : findByPk s.props pid with
    | none => simpa [stepStore, updateProperty, hf] using h
    | some p =>
      simp only [stepStore, updateProperty, hf]
      intro q hq
      obtain ⟨q0, hq0, rfl⟩ := List.mem_map.mp hq
      by_cases hcc : q0.property_id == pid
      · rw [if_pos hcc]
        exact h q0 hq0
      · rw [if_neg hcc]
        exact h q0 hq0
  | delete pid =>
    cases hf : findByPk s.props pid with
    | none => simpa [stepStore, deleteProperty, hf] using h
    | some p =>
      simp only [stepStore, deleteProperty, hf]
      intro q hq
      exact h q (List.mem_filter.mp hq).1
  | approve pid =>
    cases hf : findByPk s.props pid with
    | none => simpa [stepStore, approveProperty, hf] using h
    | some p =>
      simp only [stepStore, approveProperty, hf]
      intro q hq
      obtain ⟨q0, hq0, rfl⟩ := List.mem_map.mp hq
      by_cases hcc : q0.property_id == pid
      · rw [if_pos hcc]
        exact h q0 hq0
      · rw [if_neg hcc]
        exact h q0 hq0
  | query => exact h

lemma stepStore_keeps_approved (s : DBState) (op : Op) (i : Nat)
    (hi : i < s.nextId)
    (h : ∀ q ∈ s.props, q.property_id = i → q.isApproved = true) :
    ∀ q ∈ (stepStore s op).props, q.property_id = i → q.isApproved = true := by
  cases op with
  | create a =>
    by_cases hc : s.props.any (fun p => p.name == a.name && p.user_id == a.user_id)
    · simpa [stepStore, createProperty, hc] using h
    · simp only [stepStore, createProperty, hc, Bool.false_eq_true, if_false]
      intro q hq hqi
      rcases List.mem_append.mp hq with hq2 | hq2
      · exact h q hq2 hqi
      · rw [List.mem_singleton] at hq2
        subst hq2
        have hni : s.nextId = i := hqi
        exact absurd hni (by omega)
  | update pid u =>
    cases hf : findByPk s.props pid with
    | none => simpa [stepStore, updateProperty, hf] using h
    | some p =>
      simp only [stepStore, updateProperty, hf]
      intro q hq hqi
      obtain ⟨q0, hq0, rfl⟩ := List.mem_map.mp hq
      by_cases hcc : q0.property_id == pid
      · rw [if_pos hcc] at hqi ⊢
        exact h q0 hq0 hqi
      · rw [if_neg hcc] at hqi ⊢
        exact h q0 hq0 hqi
  | delete pid =>
    cases hf : findByPk s.props pid with
    | none => simpa [stepStore, deleteProperty, hf] using h
    | some p =>
      simp only [stepStore, deleteProperty, hf]
      intro q hq hqi
      exact h q (List.mem_filter.mp hq).1 hqi
  | approve pid =>
    cases hf : findByPk s.props pid with
    | none => simpa [stepStore, approveProperty, hf] using h
    | some p =>
      simp only [stepStore, approveProperty, hf]
      intro q hq hqi
      obtain ⟨q0, hq0, rfl⟩ := List.mem_map.mp hq
      by_cases hcc : q0.property_id == pid
      · rw [if_pos hcc]
      · rw [if_neg hcc] at hqi ⊢
        exact h q0 hq0 hqi
  | query => exact h

lemma approve_sets_approved (s : DBState) (i : Nat) :
    ∀ q ∈ (stepStore s (Op.approve i)).props, q.property_id = i →
      q.isApproved = true := by
  cases hf : findByPk s.props i with
  | none =>
    simp only [stepStore, approveProperty, hf]
    intro q hq hqi
    have := List.find?_eq_none.mp hf q hq
    simp only [beq_iff_eq] at this
    exact absurd hqi this
  | some p =>
    simp only [stepStore, approveProperty, hf]
    intro q hq hqi
    obtain ⟨q0, hq0, rfl⟩ := List.mem_map.mp hq
    by_cases hcc : q0.property_id == i
    · rw [if_pos hcc]
    · rw [if_neg hcc] at hqi
      exact absurd hqi (by simpa using hcc)

lemma runOps_keeps_approved (i : Nat) :
    ∀ (ops : List Op) (s : DBState), WF s → i < s.nextId →
      (∀ q ∈ s.props, q.property_id = i → q.isApproved = true) →
      ∀ q ∈ (runOps s ops).props, q.property_id = i → q.isApproved = true := by
  intro ops
  induction ops with
  | nil => intro s _ _ h; exact h
  | cons op rest ih =>
    intro s hwf hi h
    exact ih (stepStore s op) (stepStore_WF s op hwf)
      (Nat.lt_of_lt_of_le hi (stepStore_nextId_le s op))
      (stepStore_keeps_approved s op i hi h)

/-- C7: approval is one-way. Unconditionally, after `approveProperty` on
id `i` every row with id `i` carries `isApproved = true` — in particular
a row whose `isApproved` was `false` has transitioned to `true`; and if
every row with id `i` is approved in a well-formed store, then after any
sequence of exposed operations (create, update, delete, approve, queries)
every row with id `i` is still approved — no operation ever resets
`isApproved` to false. -/
theorem approval_one_way (s : DBState) (i : Nat) (hwf : WF s)
    (hi : i < s.nextId) (ops : List Op) :
    (∀ q ∈ (stepStore s (Op.approve i)).props, q.property_id = i →
      q.isApproved = true) ∧
    ((∀ q ∈ s.props, q.property_id = i → q.isApproved = true) →
      ∀ q ∈ (runOps s ops).props, q.property_id = i → q.isApproved = true) :=
  ⟨approve_sets_approved s i,
    fun happr => runOps_keeps_approved i ops s hwf hi happr⟩

/-- The sample row before approval: identical but `isApproved = false`. -/
def sampleUnapproved : Property := { sampleApproved with isApproved := false }

/-- C7 witness: approving the not-yet-approved sample row (a concrete
`false` to `true` transition) leaves its id approved, and the approved
sample row is still approved after a concrete sequence of update, create,
approve and query calls. -/
theorem approval_one_way_witness :
    (sampleUnapproved.isApproved = false ∧
      WF ⟨[sampleUnapproved], 2⟩ ∧
      ∀ q ∈ (stepStore ⟨[sampleUnapproved], 2⟩ (Op.approve 1)).props,
        q.property_id = 1 → q.isApproved = true) ∧
    (WF ⟨[sampleApproved], 2⟩ ∧ 1 < (⟨[sampleApproved], 2⟩ : DBState).nextId ∧
      (∀ q ∈ (⟨[sampleApproved], 2⟩ : DBState).props, q.property_id = 1 →
        q.isApproved = true) ∧
      (∀ q ∈ (runOps ⟨[sampleApproved], 2⟩
          [Op.update 1 { price := some 1 }, Op.create sampleArgsSameUser,
           Op.approve 1, Op.query]).props,
        q.property_id = 1 → q.isApproved = true)) := by
  have hwfU : WF ⟨[sampleUnapproved], 2⟩ := by
    intro p hp
    rw [List.mem_singleton] at hp
    subst hp
    decide
  have hiU : 1 < (⟨[sampleUnapproved], 2⟩ : DBState).nextId := by decide
  have hwf : WF ⟨[sampleApproved], 2⟩ := by
    intro p hp
    rw [List.mem_singleton] at hp
    subst hp
    decide
  have hi : 1 < (⟨[sampleApproved], 2⟩ : DBState).nextId := by decide
  have happr : ∀ q ∈ (⟨[sampleApproved], 2⟩ : DBState).props,
      q.property_id = 1 → q.isApproved = true := by
    intro q hq _
    rw [List.mem_singleton] at hq
    subst hq
    rfl
  exact ⟨⟨rfl, hwfU,
      (approval_one_way ⟨[sampleUnapproved], 2⟩ 1 hwfU hiU []).1⟩,
    ⟨hwf, hi, happr,
      (approval_one_way ⟨[sampleApproved], 2⟩ 1 hwf hi
        [Op.update 1 { price := some 1 }, Op.create sampleArgsSameUser,
         Op.approve 1, Op.query]).2 happr⟩⟩

lemma imageLe_trans : ∀ a b c : PropertyImage,
    decide (a.image_id ≤ b.image_id) = true →
    decide (b.image_id ≤ c.image_id) = true →
    decide (a.image_id ≤ c.image_id) = true := by
  intro a b c hab hbc
  simp only [decide_eq_true_eq] at hab hbc ⊢
  omega

lemma imageLe_total : ∀ a b : PropertyImage,
    (decide (a.image_id ≤ b.image_id) || decide (b.image_id ≤ a.image_id)) = true := by
  intro a b
  simp only [Bool.or_eq_true, decide_eq_true_eq]
  omega

/-- C8: the image composer returns one output row per input row, in the
same order; row `i` of the output is row `i` of the input augmented with
an `images` field holding the `image_url` values of exactly the
`PropertyImage` rows referencing that property, listed in ascending
`image_id` order; a property with no image rows gets the empty list. -/
theorem attachImages_per_row (imgs : List PropertyImage)
    (props : List Property) (i : Nat) (h : i < props.length) :
    (attachImagesToProperties imgs props).length = props.length ∧
    ∃ h2 : i < (attachImagesToProperties imgs props).length,
      ((attachImagesToProperties imgs props).get ⟨i, h2⟩).toProperty =
        props.get ⟨i, h⟩ ∧
      (∃ rows : List PropertyImage,
        rows.Perm (imgs.filter (fun im =>
          im.property_id == (props.get ⟨i, h⟩).property_id)) ∧
        rows.Pairwise (fun a b => a.image_id ≤ b.image_id) ∧
        ((attachImagesToProperties imgs props).get ⟨i, h2⟩).images =
          rows.map (fun im => im.image_url)) ∧
      (imgs.filter (fun im =>
          im.property_id == (props.get ⟨i, h⟩).property_id) = [] →
        ((attachImagesToProperties imgs props).get ⟨i, h2⟩).images = []) := by
  have hlen : (attachImagesToProperties imgs props).length = props.length := by
    rw [attachImagesToProperties_eq_map]
    exact List.length_map _ _
  have h2 : i < (attachImagesToProperties imgs props).length := by
    rw [hlen]; exact h
  have hget : (attachImagesToProperties imgs props).get ⟨i, h2⟩ =
      enrich imgs (props.get ⟨i, h⟩) := List.get_map _
  refine ⟨hlen, h2, ?_, ?_, ?_⟩
  · rw [hget]
    rfl
  · refine ⟨getImagesByProperty imgs (props.get ⟨i, h⟩).property_id, ?_, ?_, ?_⟩
    · exact List.mergeSort_perm _ _
    · exact (List.sorted_mergeSort imageLe_trans imageLe_total _).imp
        (fun hab => of_decide_eq_true hab)
    · rw [hget]
      rfl
  · intro hempty
    rw [hget]
    show ((getImagesByProperty imgs (props.get ⟨i, h⟩).property_id).map
      (fun im => im.image_url)) = []
    rw [getImagesByProperty, hempty, List.mergeSort_nil, List.map_nil]

/-- Two image rows of the sample property, listed out of insertion
order. -/
def sampleImgs : List PropertyImage :=
  [⟨2, 1, "b.jpg"⟩, ⟨1, 1, "a.jpg"⟩]

/-- C8 witness: the composer applied to the sample row and its two image
rows keeps one output row per input row. -/
theorem attachImages_per_row_witness :
    (0 : Nat) < ([sampleApproved] : List Property).length ∧
    (attachImagesToProperties sampleImgs [sampleApproved]).length = 1 := by
  have h0 : (0 : Nat) < ([sampleApproved] : List Property).length := by decide
  exact ⟨h0,
    ((attachImages_per_row sampleImgs [sampleApproved] 0 h0).1).trans rfl⟩

/-- C9 counterexample: when the store call fails with a concrete error,
`getPropertiesDynamic` surfaces the fixed message `"Error fetching
properties"`, not the store's own error — the persistence error is not
propagated unchanged. -/
theorem store_error_not_propagated_unchanged :
    getPropertiesDynamicE [] {} (.error "connection lost") =
      .error "Error fetching properties" ∧
    getPropertiesDynamicE [] {} (.error "connection lost") ≠
      .error "connection lost" := by
  refine ⟨rfl, fun h => ?_⟩
  simp only [getPropertiesDynamicE, Except.error.injEq] at h
  exact absurd h (by decide)

/-- C9 amended: when the underlying store call fails, each list operation
still propagates a failure to the caller (it never recovers to a value),
but the `catch` block replaces the store's error with a fixed
operation-specific message. -/
theorem store_error_replaced_with_fixed_message (imgs : List PropertyImage)
    (f : DynFilters) (uid : Nat) (msg : String) :
    getPropertiesDynamicE imgs f (.error msg) =
      .error "Error fetching properties" ∧
    getNonApprovedPropertiesE imgs (.error msg) =
      .error "Error fetching non-approved properties" ∧
    getPropertiesByUserIdE imgs uid (.error msg) =
      .error "Error fetching properties by user ID" :=
  ⟨rfl, rfl, rfl⟩

end RealEstate
